import Mathlib

/-
Verification of the autoswe semantic code-search core (pkg/db, pkg/index)
against its natural-language specification.  The Go source is shallowly
embedded: pure functions become Lean functions, the bolt-backed document
store becomes an explicit list-of-documents state threaded through the
operations, Go float64 vector arithmetic is modelled over exact rationals
with the final cosine value in the reals, and wall-clock times are modelled
by their (seconds, nanoseconds) components, of which Unix() extracts the
seconds, exactly as the Go comparison does.
-/

/-! ### Document store (pkg/db/db.go) -/

/-- Metadata carried on every stored document.  The Go code stores a
`map[string]string`; the fields used by the indexer and query engine are
modelled as a structure.  `modTime` models the result of parsing the
recorded RFC3339 `mod_time` string: `some s` when it parses to a time with
Unix seconds `s`, `none` when the recorded string fails to parse. -/
structure DocMeta where
  path : String
  language : String
  modTime : Option Int
  size : Int
  isFileEntry : Bool
  nsName : String
  startLine : Int := 0
  endLine : Int := 0
deriving DecidableEq, Repr

/-- A stored document (`db.Document`); the embedding vector is irrelevant
to the indexing claims and is omitted from the stored record. -/
structure StoredDoc where
  id : String
  content : String
  meta : DocMeta
deriving DecidableEq, Repr

/-- The document store: the bolt bucket, as a list of records keyed by
`id`.  Uniqueness of IDs is maintained by upsert semantics of `putDoc`. -/
abbrev Store := List StoredDoc

/-- `GetDocument`: first record with the given ID, `none` models the
`ErrNotFound` outcome. -/
def getDoc (id : String) (s : Store) : Option StoredDoc :=
  s.find? (fun d => d.id = id)

/-- Whether `p` is a literal string prefix of `s`, as `strings.HasPrefix`. -/
def strHasPfx (p s : String) : Bool :=
  p.data.isPrefixOf s.data

/-- `DeleteDocumentsWithPrefix`: removes every document whose ID begins
with the given literal string. -/
def deleteDocsWithPfx (p : String) (s : Store) : Store :=
  s.filter (fun d => !(strHasPfx p d.id))

/-- Number of documents `deleteDocsWithPfx` would remove (used to count
store writes performed by a deletion). -/
def countDocsWithPfx (p : String) (s : Store) : Nat :=
  (s.filter (fun d => strHasPfx p d.id)).length

/-- `b.Put` inside `AddDocument`/`BatchAddDocuments`: upsert keyed by ID. -/
def putDoc (d : StoredDoc) (s : Store) : Store :=
  if s.any (fun e => e.id = d.id) then
    s.map (fun e => if e.id = d.id then d else e)
  else
    s ++ [d]

/-- `BatchAddDocuments` (the embedding callback is modelled as always
succeeding; embedding failures are outside the indexing claims). -/
def batchPutDocs (docs : List StoredDoc) (s : Store) : Store :=
  docs.foldl (fun acc d => putDoc d acc) s

/-- `Count()`: number of keys in the bucket. -/
def countDocs (s : Store) : Nat := s.length

/-! ### Cosine similarity (pkg/db/db.go, cosineSimilarity) -/

/-- The dot-product loop of `cosineSimilarity`, over exact rationals. -/
def dotQ (a b : List ℚ) : ℚ := (List.zipWith (fun x y => x * y) a b).sum

/-- The accumulated squared norm of one vector in `cosineSimilarity`. -/
def normSqQ (a : List ℚ) : ℚ := (a.map (fun x => x * x)).sum

/-- `cosineSimilarity`: returns `-1` on a length mismatch, `0` when either
vector has zero norm, and `dot/(|a|*|b|)` otherwise.  The float64
arithmetic is modelled over exact rationals, with the square roots and the
final quotient taken in `ℝ`. -/
noncomputable def cosineSimilarity (a b : List ℚ) : ℝ :=
  if a.length ≠ b.length then -1
  else if normSqQ a = 0 ∨ normSqQ b = 0 then 0
  else (dotQ a b : ℝ) / (Real.sqrt (normSqQ a) * Real.sqrt (normSqQ b))

/-! ### Range merging and snippet extraction (pkg/index/query.go) -/

/-- `snippetRange`: a line range in one file. -/
structure snippetRange where
  startLine : Int
  endLine : Int
  filePath : String := ""
  path : String := ""
  nsName : String := ""
deriving DecidableEq, Repr, Inhabited

/-- Number of context lines added around each snippet (`contextLines`). -/
def contextLines : Int := 5

/-- Merge threshold between nearby ranges (`mergeThreshold`). -/
def mergeThreshold : Int := 10

/-- Stable insertion used to model `sort.Slice(ranges, by startLine)`; for
ranges with pairwise distinct start lines (as in all claims) any correct
sort produces this order. -/
def insertByStart (r : snippetRange) : List snippetRange → List snippetRange
  | [] => [r]
  | x :: xs =>
    if r.startLine < x.startLine then r :: x :: xs else x :: insertByStart r xs

/-- Sort of a range list by start line. -/
def sortByStart (l : List snippetRange) : List snippetRange :=
  l.foldr insertByStart []

/-- The merging loop of `mergeRanges`: `current` absorbs the next range
when its start is within `mergeThreshold` of the current end (the Go code
assigns `current.endLine = r.endLine` on a merge, without taking a max). -/
def mergeLoop (current : snippetRange) : List snippetRange → List snippetRange
  | [] => [current]
  | r :: rest =>
    if r.startLine ≤ current.endLine + mergeThreshold then
      mergeLoop { current with endLine := r.endLine } rest
    else
      current :: mergeLoop r rest

/-- `mergeRanges`: sort by start line, then merge nearby ranges. -/
def mergeRanges (l : List snippetRange) : List snippetRange :=
  match sortByStart l with
  | [] => []
  | x :: xs => mergeLoop x xs

/-- Splitting a character list on a separator character; the result always
has one (possibly empty) segment more than there are separators. -/
def splitOnChar (sep : Char) : List Char → List (List Char)
  | [] => [[]]
  | c :: rest =>
    let r := splitOnChar sep rest
    if c = sep then [] :: r
    else
      match r with
      | [] => [[c]]
      | h :: t => (c :: h) :: t

/-- `strings.Split(content, "\n")`. -/
def splitLines (content : String) : List String :=
  (splitOnChar '\n' content.data).map String.mk

/-- `strings.Join(parts, sep)`. -/
def goJoin (sep : String) : List String → String
  | [] => ""
  | [x] => x
  | x :: xs => x ++ sep ++ goJoin sep xs

/-- `CodeExample`: one rendered snippet. -/
structure CodeExample where
  path : String
  startLine : Int
  endLine : Int
  content : String
  nsName : String
deriving DecidableEq, Repr

/-- `shouldIncludeWholeFile`: more than half the file's lines are covered
by the ranges (counted as a set of distinct line numbers). -/
def coveredLines (ranges : List snippetRange) : Finset Int :=
  ranges.foldl (fun acc r => acc ∪ Finset.Icc r.startLine r.endLine) ∅

/-- Decision to promote a file's ranges to the whole file. -/
def shouldIncludeWholeFile (ranges : List snippetRange) (totalLines : Nat) : Bool :=
  if ranges.isEmpty then false
  else decide ((coveredLines ranges).card > totalLines / 2)

/-- `extractSnippet`: clip a range expanded by `contextLines` to the file,
join the selected lines with newlines, and estimate the token cost as
`len(text)/4` (byte length in Go; the claims use ASCII content, where the
character count coincides). -/
def extractSnippet (lines : List String) (r : snippetRange) : CodeExample × Nat :=
  let contextStart := max (r.startLine - contextLines) 1
  let contextEnd := min (r.endLine + contextLines) (lines.length : Int)
  let snippet := goJoin "\n"
    ((lines.drop (contextStart - 1).toNat).take (contextEnd - contextStart + 1).toNat)
  let tokenEstimate := snippet.length / 4
  ({ path := r.path, startLine := contextStart, endLine := contextEnd,
     content := snippet, nsName := r.nsName }, tokenEstimate)

/-- One grouped file of search hits, as built by the grouping phase of
`collectSnippets`: its namespace and path, the file content already split
into lines (`strings.Split` of the bytes read from the namespace), and the
snippet ranges taken from the surviving chunk hits. -/
structure FileGroup where
  nsName : String
  filePath : String
  lines : List String
  ranges : List snippetRange
deriving Repr

/-- The per-file range loop of `collectSnippets`: each merged range is
extracted; a range whose cost would push the running total past 32000
stops this file's loop (`break`), leaving the total untouched. -/
def processRanges (lines : List String) (t : Nat) :
    List snippetRange → List CodeExample × Nat
  | [] => ([], t)
  | r :: rest =>
    let (ex, tokenEstimate) := extractSnippet lines r
    if t + tokenEstimate > 32000 then ([], t)
    else
      let (exs, tOut) := processRanges lines (t + tokenEstimate) rest
      (ex :: exs, tOut)

/-- The body of `collectSnippets` for one file: merge the ranges, promote
to the whole file when more than half is covered (adding the whole-file
snippet only when it fits the budget), otherwise run the range loop. -/
def processFile (g : FileGroup) (t : Nat) : List CodeExample × Nat :=
  let mergedRanges := mergeRanges g.ranges
  if shouldIncludeWholeFile mergedRanges g.lines.length then
    let (ex, tokenEstimate) := extractSnippet g.lines
      { startLine := 1, endLine := (g.lines.length : Int),
        filePath := g.filePath,
        path := (g.ranges.headI).path, nsName := (g.ranges.headI).nsName }
    if t + tokenEstimate ≤ 32000 then ([ex], t + tokenEstimate)
    else ([], t)
  else
    processRanges g.lines t mergedRanges

/-- The processing loops of `collectSnippets` (query.go lines 244-298),
over the grouped per-file ranges.  Go iterates the grouping maps in an
unspecified order; the model takes the groups as a list in one such
order.  Returns the collected examples and the final running token
total. -/
def collectSnippets (groups : List FileGroup) : List CodeExample × Nat :=
  groups.foldl
    (fun acc g =>
      let (exs, tOut) := processFile g acc.2
      (acc.1 ++ exs, tOut))
    ([], 0)

/-! ### Result filtering and query control flow (pkg/index/query.go) -/

/-- `db.SearchResult`: a document with its similarity (float64 in Go,
modelled as an exact rational). -/
structure SearchResult where
  doc : StoredDoc
  similarity : ℚ
deriving DecidableEq, Repr

/-- `filterResults`: keep hits with similarity at least 0.4, backfill from
the rejected pool (in encounter order) until 3 results are reached, and
cap the total at 20. -/
def filterResults (results : List SearchResult) : List SearchResult :=
  let goodResults := results.filter (fun r => (2 : ℚ)/5 ≤ r.similarity)
  let lowSimilarityResults := results.filter (fun r => ¬ ((2 : ℚ)/5 ≤ r.similarity))
  let filtered :=
    if goodResults.length < 3 ∧ 0 < lowSimilarityResults.length then
      let needed := min (3 - goodResults.length) lowSimilarityResults.length
      goodResults ++ lowSimilarityResults.take needed
    else goodResults
  if filtered.length > 20 then filtered.take 20 else filtered

/-- `db.Query`: keep the chunk documents (`is_file_entry=false` filter),
score each against the query vector, sort descending by similarity, and
truncate to the limit.  The embedding round trip is modelled by the
scoring function `simOf`. -/
def dbQuery (docs : List StoredDoc) (simOf : StoredDoc → ℚ) (limit : Nat) :
    List SearchResult :=
  let results := (docs.filter (fun d => d.meta.isFileEntry = false)).map
    (fun d => SearchResult.mk d (simOf d))
  (results.mergeSort (fun x y => decide (y.similarity ≤ x.similarity))).take limit

/-- `Indexer.Search`: clamp the requested limit to `Count()` and query for
chunk documents. -/
def searchStore (docs : List StoredDoc) (simOf : StoredDoc → ℚ)
    (queryLimit : Nat) : List SearchResult :=
  let count := countDocs docs
  dbQuery docs simOf (if queryLimit > count then count else queryLimit)

/-- The fixed refusal phrase returned when filtering leaves no results. -/
def refusalText : String :=
  "No relevant code found in the codebase for this query."

/-- `buildPrompt`: render each snippet as a labelled fenced block and
append the query and the fixed instructions. -/
def buildPrompt (query : String) (examples : List CodeExample) : String :=
  "Here are some snippets from a codebase and supporting documentation:\n\n"
    ++ goJoin "" (examples.map (fun e =>
        "File: " ++ e.path ++ " (lines " ++ toString e.startLine ++ "-"
          ++ toString e.endLine ++ ", namespace = " ++ e.nsName ++ ")\n"
          ++ e.content ++ "\n\n"))
    ++ "Query: " ++ query ++ "\n\n"
    ++ "Please extract the snippets most relevant to the query."

/-- The control flow of `Indexer.Query`: search, filter, and either return
the fixed refusal text without touching the generator, or delegate the
assembled prompt to it.  The returned flag records whether the answer
generator was invoked; `none` models a propagated generation error. -/
def runQuery (docs : List StoredDoc) (simOf : StoredDoc → ℚ)
    (collect : List SearchResult → List CodeExample)
    (gen : String → Option String) (query : String) :
    Option (String × Bool) :=
  let results := searchStore docs simOf 30
  let filteredResults := filterResults results
  if filteredResults.length = 0 then some (refusalText, false)
  else
    match gen (buildPrompt query (collect filteredResults)) with
    | some answer => some (answer, true)
    | none => none

/-! ### Indexer (pkg/index/index.go) -/

/-- A Go `time.Time`, kept as its second and nanosecond components;
`Unix()` extracts the seconds.  Formatting with RFC3339 and re-parsing
preserves the seconds (and discards the nanoseconds), which is all the
staleness comparison reads. -/
structure GoTime where
  sec : Int
  nsec : Int
deriving DecidableEq, Repr

/-- One file of a walked namespace: its path relative to the namespace
root together with the stat information (`d.Info()`) the walk sees. -/
structure FileRec where
  path : String
  mtime : GoTime
  size : Int
deriving DecidableEq, Repr

/-- `ContentSpan`. -/
structure ContentSpan where
  startLine : Int
  endLine : Int
deriving DecidableEq, Repr

/-- `ContentSummary`. -/
structure ContentSummary where
  summary : String
  span : ContentSpan
deriving DecidableEq, Repr

/-- The opaque capabilities `indexFile` calls out to: `os.Stat` and
`os.ReadFile` against the process working directory (note: not against
the walked namespace), and the Gemini summarization round trip
(`none` models any generation, parsing or empty-response failure). -/
structure IndexEnv where
  osStat : String → Option (GoTime × Int)
  readFile : String → Option String
  summarize : String → Option (List ContentSummary)

/-- The suffix of a character list starting at its final dot, if any. -/
def lastDotSuffix : List Char → Option (List Char)
  | [] => none
  | c :: rest =>
    match lastDotSuffix rest with
    | some s => some s
    | none => if c = '.' then some (c :: rest) else none

/-- `filepath.Ext`: the suffix of the path starting at the final dot. -/
def fileExt (path : String) : String :=
  match lastDotSuffix path.data with
  | some s => String.mk s
  | none => ""

/-- ASCII lower-casing, as `strings.ToLower` acts on the ASCII extensions
`detectLanguage` compares against. -/
def asciiLower (s : String) : String :=
  String.mk (s.data.map (fun c =>
    if 'A' ≤ c ∧ c ≤ 'Z' then Char.ofNat (c.toNat + 32) else c))

/-- `detectLanguage`: pure map from lower-cased extension to a label. -/
def detectLanguage (path : String) : String :=
  let ext := asciiLower (fileExt path)
  if ext = ".go" then "Go"
  else if ext = ".js" ∨ ext = ".jsx" then "JavaScript"
  else if ext = ".ts" ∨ ext = ".tsx" then "TypeScript"
  else if ext = ".py" then "Python"
  else if ext = ".java" then "Java"
  else if ext = ".rb" then "Ruby"
  else if ext = ".php" then "PHP"
  else if ext = ".rs" then "Rust"
  else if ext = ".c" then "C"
  else if ext = ".cpp" ∨ ext = ".cc" ∨ ext = ".cxx" then "C++"
  else if ext = ".h" ∨ ext = ".hpp" then "C/C++ Header"
  else "Unknown"

/-- `ComputeID`: `"<namespace>:<path>"` for a file-level marker
(`idx < 0`), `"<namespace>:<path>#<idx>"` for the `idx`-th chunk. -/
def ComputeID (ns path : String) (idx : Int) : String :=
  if idx < 0 then ns ++ ":" ++ path
  else ns ++ ":" ++ path ++ "#" ++ toString idx

/-- `ExtractFileSummaries`: read the file, split it into lines, obtain the
summaries from the summarizer (which receives the line-numbered text; the
numbering wrapper is folded into the opaque `summarize` capability), fail
on an empty list, and fail if any entry violates
`1 ≤ start_line ≤ end_line ≤ total_lines`. -/
def ExtractFileSummaries (env : IndexEnv) (path : String) :
    Option (List ContentSummary) :=
  match env.readFile path with
  | none => none
  | some content =>
    let lines := splitLines content
    match env.summarize content with
    | none => none
    | some result =>
      if result.length = 0 then none
      else if result.all (fun s =>
          decide (1 ≤ s.span.startLine ∧ s.span.startLine ≤ s.span.endLine ∧
            s.span.endLine ≤ (lines.length : Int))) then
        some result
      else none

/-- The marker document `indexFile` writes: empty content, metadata with
`is_file_entry=true` and — hardcoded in the source — namespace `"repo"`
and an ID computed with namespace `"repo"`. -/
def markerDoc (path : String) (mt : GoTime) (size : Int) : StoredDoc :=
  { id := ComputeID "repo" path (-1), content := "",
    meta := { path := path, language := detectLanguage path,
              modTime := some mt.sec, size := size,
              isFileEntry := true, nsName := "repo" } }

/-- The chunk document for the `idx`-th summary, again with the hardcoded
`"repo"` namespace. -/
def chunkDoc (path : String) (mt : GoTime) (size : Int) (idx : Nat)
    (s : ContentSummary) : StoredDoc :=
  { id := ComputeID "repo" path (Int.ofNat idx), content := s.summary,
    meta := { path := path, language := detectLanguage path,
              modTime := some mt.sec, size := size,
              isFileEntry := false, nsName := "repo",
              startLine := s.span.startLine, endLine := s.span.endLine } }

/-- The chunk documents for a summary list, indexed from `idx` upward. -/
def chunkDocsFrom (path : String) (mt : GoTime) (size : Int) (idx : Nat) :
    List ContentSummary → List StoredDoc
  | [] => []
  | s :: rest => chunkDoc path mt size idx s :: chunkDocsFrom path mt size (idx + 1) rest

/-- Result of one `indexFile` call: the new store, the number of store
writes performed (deletions plus puts), and whether the call returned an
error. -/
structure IndexOutcome where
  store : Store
  writes : Nat
  failed : Bool
deriving Repr

/-- `indexFile`: stat the path, delete every document whose ID carries the
file's marker-ID string as a literal prefix, write the fresh marker, then
summarize and batch-insert the chunk documents.  A summarization failure
returns after the marker has already been written. -/
def indexFile (env : IndexEnv) (s : Store) (path : String) : IndexOutcome :=
  match env.osStat path with
  | none => ⟨s, 0, true⟩
  | some (mt, size) =>
    let pfxId := ComputeID "repo" path (-1)
    let deleted := countDocsWithPfx pfxId s
    let s1 := deleteDocsWithPfx pfxId s
    let s2 := putDoc (markerDoc path mt size) s1
    match ExtractFileSummaries env path with
    | none => ⟨s2, deleted + 1, true⟩
    | some summaries =>
      let docs := chunkDocsFrom path mt size 0 summaries
      ⟨batchPutDocs docs s2, deleted + 1 + docs.length, false⟩

/-- `needsReindexing`: look the marker up under the *walked* namespace's
ID, report `(true, no error)` when it is absent, `(true, error)` when its
recorded mod time fails to parse, and otherwise compare Unix seconds
(`fileModTime.Unix() > lastModTime.Unix()`).  The returned pair is
`(needsUpdate, an error was returned)`. -/
def needsReindexing (s : Store) (ns path : String) (info : GoTime) : Bool × Bool :=
  match getDoc (ComputeID ns path (-1)) s with
  | none => (true, false)
  | some doc =>
    match doc.meta.modTime with
    | none => (true, true)
    | some lastSec => (decide (info.sec > lastSec), false)

/-- The walker's decision in `UpdateIndex`: a file is passed to
`indexFile` only when `needsReindexing` returned no error and `true`;
when it returned an error the walker logs a warning and skips the file. -/
def reindexDecision (s : Store) (ns path : String) (info : GoTime) : Bool :=
  let (needsUpdate, errored) := needsReindexing s ns path info
  !errored && needsUpdate

/-- The walk of one namespace in `UpdateIndex`: files in `WalkDir` order;
stale files are indexed (their `indexFile` errors are logged and
skipped), fresh or error-checked files are left alone. -/
def walkNS (env : IndexEnv) (ns : String) :
    List FileRec → Store × Nat → Store × Nat
  | [], acc => acc
  | f :: rest, (s, w) =>
    if reindexDecision s ns f.path f.mtime then
      let o := indexFile env s f.path
      walkNS env ns rest (o.store, w + o.writes)
    else
      walkNS env ns rest (s, w)

/-- `GetIndexedFiles`: the `(namespace, path)` pairs recorded on the
marker documents (`is_file_entry=true`), in store order. -/
def fileRefsOf (s : Store) : List (String × String) :=
  (s.filter (fun d => d.meta.isFileEntry = true)).map
    (fun d => (d.meta.nsName, d.meta.path))

/-- Lookup of a namespace's file tree in the `fss` map. -/
def lookupNS (fss : List (String × List FileRec)) (ns : String) :
    Option (List FileRec) :=
  (fss.find? (fun p => p.1 = ns)).map (fun p => p.2)

/-- One step of the cleanup sweep: a recorded file whose namespace is
absent from `fss` is skipped; one that no longer exists in its namespace
has its marker-prefixed document set deleted. -/
def cleanupStep (fss : List (String × List FileRec)) (acc : Store × Nat)
    (ref : String × String) : Store × Nat :=
  match lookupNS fss ref.1 with
  | none => acc
  | some files =>
    if files.any (fun f => f.path = ref.2) then acc
    else
      let pfxId := ComputeID ref.1 ref.2 (-1)
      (deleteDocsWithPfx pfxId acc.1, acc.2 + countDocsWithPfx pfxId acc.1)

/-- `CleanupDeletedFiles`: enumerate the recorded markers, then delete the
document sets of files that no longer exist. -/
def CleanupDeletedFiles (fss : List (String × List FileRec)) (s : Store) :
    Store × Nat :=
  (fileRefsOf s).foldl (cleanupStep fss) (s, 0)

/-- `UpdateIndex`: walk every namespace, then run the cleanup sweep.
Returns the final store and the total number of document writes
(puts and deletions) the pass performed. -/
def UpdateIndex (env : IndexEnv) (fss : List (String × List FileRec))
    (s : Store) : Store × Nat :=
  let walked := fss.foldl (fun acc nsp => walkNS env nsp.1 nsp.2 acc) (s, 0)
  let (s2, w2) := CleanupDeletedFiles fss walked.1
  (s2, walked.2 + w2)

/-! ### Concrete fixtures used by the theorems -/

/-- Recomputed token cost of a collected snippet, `len(text)/4`. -/
def exCost (e : CodeExample) : Nat := e.content.length / 4

/-- Total token cost of a snippet list. -/
def costSum (l : List CodeExample) : Nat := (l.map exCost).sum

/-- A line of 128000 characters; its lone snippet costs 32001 tokens and
therefore overflows the 32000-unit budget by itself. -/
def bigLine : String := String.mk (List.replicate 128000 'a')

/-- A file group whose only (merged) snippet overflows the token budget. -/
def cexGroupBig : FileGroup :=
  { nsName := "x", filePath := "f", lines := [bigLine, "x", "y"],
    ranges := [{ startLine := 1, endLine := 1, filePath := "f",
                 path := "f", nsName := "x" }] }

/-- A later file group whose snippet is tiny and fits the budget. -/
def cexGroupSmall : FileGroup :=
  { nsName := "x", filePath := "g", lines := ["bb"],
    ranges := [{ startLine := 1, endLine := 1, filePath := "g",
                 path := "g", nsName := "x" }] }

/-- The snippet collected from `cexGroupSmall`. -/
def cexSmallExample : CodeExample :=
  { path := "g", startLine := 1, endLine := 1, content := "bb", nsName := "x" }

/-- A walked file. -/
def fileF : FileRec := { path := "f.go", mtime := ⟨200, 0⟩, size := 5 }

/-- An environment in which stat, read and summarization all succeed for
`f.go`, with a summary covering lines 1-2 of its two-line content. -/
def envWorking : IndexEnv :=
  { osStat := fun p => if p = "f.go" then some (⟨200, 0⟩, 5) else none,
    readFile := fun p => if p = "f.go" then some "package main\nfunc main()" else none,
    summarize := fun _ =>
      some [{ summary := "the main entrypoint", span := { startLine := 1, endLine := 2 } }] }

/-- The same environment with a failing summarizer. -/
def envNoSummaries : IndexEnv :=
  { osStat := fun p => if p = "f.go" then some (⟨200, 0⟩, 5) else none,
    readFile := fun p => if p = "f.go" then some "package main\nfunc main()" else none,
    summarize := fun _ => none }

/-- A marker for `f.go` whose recorded `mod_time` string fails to parse. -/
def badMarker : StoredDoc :=
  { id := "repo:f.go", content := "",
    meta := { path := "f.go", language := "Go", modTime := none, size := 5,
              isFileEntry := true, nsName := "repo" } }

/-- A marker for `f.go` recording mod time 100. -/
def freshMarker : StoredDoc :=
  { id := "repo:f.go", content := "",
    meta := { path := "f.go", language := "Go", modTime := some 100, size := 5,
              isFileEntry := true, nsName := "repo" } }

/-- Marker document for `a.go`. -/
def docA : StoredDoc :=
  { id := "repo:a.go", content := "",
    meta := { path := "a.go", language := "Go", modTime := some 100, size := 3,
              isFileEntry := true, nsName := "repo" } }

/-- Chunk document for `a.go`. -/
def docA0 : StoredDoc :=
  { id := "repo:a.go#0", content := "chunk of a.go",
    meta := { path := "a.go", language := "Go", modTime := some 100, size := 3,
              isFileEntry := false, nsName := "repo",
              startLine := 1, endLine := 1 } }

/-- Marker document for `a.go.bak`. -/
def docB : StoredDoc :=
  { id := "repo:a.go.bak", content := "",
    meta := { path := "a.go.bak", language := "Unknown", modTime := some 100, size := 3,
              isFileEntry := true, nsName := "repo" } }

/-- Chunk document for `a.go.bak`. -/
def docB0 : StoredDoc :=
  { id := "repo:a.go.bak#0", content := "chunk of a.go.bak",
    meta := { path := "a.go.bak", language := "Unknown", modTime := some 100, size := 3,
              isFileEntry := false, nsName := "repo",
              startLine := 1, endLine := 1 } }

/-- A store holding the document sets of both `a.go` and `a.go.bak`. -/
def cexStoreAB : Store := [docA, docA0, docB, docB0]

/-- A document whose ID lives in the `"repo:"` ID space. -/
def repoOwnedId (d : StoredDoc) : Prop := ∃ r, d.id = "repo:" ++ r

/-- A document as the indexer writes it: namespace metadata `"repo"` and
an ID beginning with `"repo:"`, regardless of the walked namespace. -/
def repoTagged (d : StoredDoc) : Prop :=
  d.meta.nsName = "repo" ∧ repoOwnedId d

/-- The marker document a successful `indexFile` writes for a walked file. -/
def fileMarker (f : FileRec) : StoredDoc := markerDoc f.path f.mtime f.size

/-- A second walked file. -/
def fileG : FileRec := { path := "g.go", mtime := ⟨300, 0⟩, size := 9 }

/-- An environment whose summarizer fails exactly on `f.go`'s content and
succeeds on `g.go`'s. -/
def envMixed : IndexEnv :=
  { osStat := fun p =>
      if p = "f.go" then some (⟨200, 0⟩, 5)
      else if p = "g.go" then some (⟨300, 0⟩, 9) else none,
    readFile := fun p =>
      if p = "f.go" then some "bad"
      else if p = "g.go" then some "good line" else none,
    summarize := fun c =>
      if c = "bad" then none
      else some [{ summary := "a summary", span := { startLine := 1, endLine := 1 } }] }

/-- The two-field range used to state the merge examples. -/
def rg (a b : Int) : snippetRange := { startLine := a, endLine := b }

/-! ### Helper lemmas -/

theorem hasPfx_iff (p q : String) : strHasPfx p q = true ↔ p.data <+: q.data := by
  simp [strHasPfx, List.isPrefixOf_iff_prefix]

theorem mid_eq (p : String) : ComputeID "repo" p (-1) = "repo:" ++ p := by
  simp [ComputeID]

theorem getDoc_delete (p id : String) (s : Store) :
    getDoc id (deleteDocsWithPfx p s) =
      if strHasPfx p id then none else getDoc id s := by
  induction s with
  | nil => simp [getDoc, deleteDocsWithPfx]
  | cons d rest ih =>
    simp only [deleteDocsWithPfx] at ih ⊢
    rw [List.filter_cons]
    by_cases hdid : d.id = id
    · subst hdid
      cases hd : strHasPfx p d.id
      · simp [hd, getDoc, List.find?_cons]
      · simp [hd, ih]
    · cases hd : strHasPfx p d.id
      · simpa [hd, getDoc, List.find?_cons, hdid] using ih
      · simpa [hd, getDoc, List.find?_cons, hdid] using ih

theorem cid_eq (p : String) (k : Nat) :
    ComputeID "repo" p (Int.ofNat k) = "repo:" ++ p ++ "#" ++ toString (Int.ofNat k) := by
  simp [ComputeID]

theorem data_rp (q : String) : ("repo:" ++ q).data = "repo:".data ++ q.data :=
  String.data_append _ _

theorem hasPfx_rp_iff (p q : String) :
    strHasPfx ("repo:" ++ p) ("repo:" ++ q) = true ↔ p.data <+: q.data := by
  rw [hasPfx_iff, data_rp, data_rp, List.prefix_append_right_inj]

theorem mid_ne_mid (p q : String) (h : p ≠ q) : ("repo:" ++ p) ≠ ("repo:" ++ q) := by
  intro he
  apply h
  have := congrArg String.data he
  rw [data_rp, data_rp] at this
  have := List.append_cancel_left this
  exact String.ext this

theorem chunk_data (q t : String) :
    ("repo:" ++ q ++ "#" ++ t).data = "repo:".data ++ (q.data ++ '#' :: t.data) := by
  rw [String.data_append, String.data_append, String.data_append]
  simp

theorem mid_ne_chunk (p q t : String) (hp : '#' ∉ p.data) :
    ("repo:" ++ p) ≠ ("repo:" ++ q ++ "#" ++ t) := by
  intro he
  have hd := congrArg String.data he
  rw [data_rp, chunk_data] at hd
  have hd' := List.append_cancel_left hd
  apply hp
  rw [hd']
  simp

theorem notPfx_chunk (p q t : String) (hp : '#' ∉ p.data)
    (hnq : ¬ p.data <+: q.data) :
    strHasPfx ("repo:" ++ p) ("repo:" ++ q ++ "#" ++ t) = false := by
  rw [← Bool.not_eq_true, hasPfx_iff, data_rp, chunk_data, List.prefix_append_right_inj]
  intro h
  rcases List.prefix_or_prefix_of_prefix h (List.prefix_append q.data ('#' :: t.data)) with h1 | h1
  · exact hnq h1
  · obtain ⟨u, hu⟩ := h1
    rw [← hu, List.prefix_append_right_inj] at h
    cases u with
    | nil =>
      apply hnq
      rw [← hu]
      simp
    | cons a u' =>
      obtain ⟨v, hv⟩ := h
      injection hv with hv1 hv2
      apply hp
      rw [← hu, hv1]
      simp

theorem getDoc_map_replace (d0 : StoredDoc) (i : String) (s : Store) (h : d0.id ≠ i) :
    getDoc i (s.map (fun e => if e.id = d0.id then d0 else e)) = getDoc i s := by
  induction s with
  | nil => rfl
  | cons e rest ih =>
    rw [List.map_cons]
    unfold getDoc
    rw [List.find?_cons, List.find?_cons]
    by_cases he : e.id = d0.id
    · rw [if_pos he]
      have h1 : (decide (d0.id = i)) = false := by simp [h]
      have h2 : (decide (e.id = i)) = false := by simp [he ▸ h]
      simp only [h1, h2]
      exact ih
    · rw [if_neg he]
      cases hd : decide (e.id = i)
      · simp only [hd]
        exact ih
      · simp only [hd]

theorem getDoc_putDoc_ne (d0 : StoredDoc) (i : String) (s : Store) (h : d0.id ≠ i) :
    getDoc i (putDoc d0 s) = getDoc i s := by
  unfold putDoc
  by_cases hany : s.any (fun e => e.id = d0.id) = true
  · rw [if_pos hany]
    exact getDoc_map_replace d0 i s h
  · rw [if_neg hany]
    rw [getDoc, List.find?_append]
    simp [getDoc, List.find?, h]

theorem mem_putDoc (d d0 : StoredDoc) (s : Store) (h : d ∈ putDoc d0 s) :
    d = d0 ∨ d ∈ s := by
  unfold putDoc at h
  by_cases hany : s.any (fun e => e.id = d0.id) = true
  · rw [if_pos hany] at h
    obtain ⟨e, he, hed⟩ := List.mem_map.mp h
    by_cases hc : e.id = d0.id
    · rw [if_pos hc] at hed
      exact Or.inl hed.symm
    · rw [if_neg hc] at hed
      exact Or.inr (hed ▸ he)
  · rw [if_neg hany] at h
    rcases List.mem_append.mp h with h1 | h1
    · exact Or.inr h1
    · exact Or.inl (List.mem_singleton.mp h1)

theorem mem_batchPut (docs : List StoredDoc) (s : Store) (d : StoredDoc)
    (h : d ∈ batchPutDocs docs s) : d ∈ docs ∨ d ∈ s := by
  induction docs generalizing s with
  | nil => exact Or.inr h
  | cons d0 rest ih =>
    rcases ih (putDoc d0 s) h with h1 | h1
    · exact Or.inl (List.mem_cons_of_mem _ h1)
    · rcases mem_putDoc d d0 s h1 with h2 | h2
      · exact Or.inl (h2 ▸ List.mem_cons_self d0 rest)
      · exact Or.inr h2

theorem getDoc_batchPut_ne (docs : List StoredDoc) (i : String) (s : Store)
    (h : ∀ d ∈ docs, d.id ≠ i) :
    getDoc i (batchPutDocs docs s) = getDoc i s := by
  induction docs generalizing s with
  | nil => rfl
  | cons d0 rest ih =>
    rw [show batchPutDocs (d0 :: rest) s = batchPutDocs rest (putDoc d0 s) from rfl]
    rw [ih (putDoc d0 s) (fun d hd => h d (List.mem_cons_of_mem _ hd))]
    exact getDoc_putDoc_ne d0 i s (h d0 (List.mem_cons_self _ _))

theorem mem_delete (p : String) (s : Store) (d : StoredDoc)
    (h : d ∈ deleteDocsWithPfx p s) : d ∈ s :=
  List.mem_of_mem_filter h

theorem chunkDocsFrom_shape (path : String) (mt : GoTime) (size : Int) :
    ∀ (k : Nat) (sums : List ContentSummary) (d : StoredDoc),
      d ∈ chunkDocsFrom path mt size k sums →
      ∃ j sum, d = chunkDoc path mt size j sum := by
  intro k sums
  induction sums generalizing k with
  | nil => intro d h; cases h
  | cons s0 rest ih =>
    intro d h
    rcases List.mem_cons.mp h with h1 | h1
    · exact ⟨k, s0, h1⟩
    · exact ih (k + 1) d h1

theorem hasPfx_refl (p : String) : strHasPfx p p = true := by
  simp [hasPfx_iff]

theorem pfx_chunk_self (p t : String) :
    strHasPfx ("repo:" ++ p) ("repo:" ++ p ++ "#" ++ t) = true := by
  rw [hasPfx_iff, data_rp, chunk_data]
  exact (List.prefix_append_right_inj _).mpr (List.prefix_append _ _)

theorem marker_ne_of_notPfx (p i : String) (h : strHasPfx ("repo:" ++ p) i = false) :
    ("repo:" ++ p) ≠ i := by
  intro he
  rw [← he, hasPfx_refl] at h
  exact Bool.noConfusion h

theorem chunk_ne_of_notPfx (p t i : String) (h : strHasPfx ("repo:" ++ p) i = false) :
    ("repo:" ++ p ++ "#" ++ t) ≠ i := by
  intro he
  rw [← he, pfx_chunk_self] at h
  exact Bool.noConfusion h

theorem getDoc_none_of_clear (p : String) (s : Store)
    (h : ∀ d ∈ s, strHasPfx ("repo:" ++ p) d.id = false) :
    getDoc ("repo:" ++ p) s = none := by
  refine List.find?_eq_none.mpr ?_
  intro d hd
  simp only [decide_eq_true_eq]
  intro he
  have := h d hd
  rw [he, hasPfx_refl] at this
  exact Bool.noConfusion this

theorem marker_id_eq (p : String) (mt : GoTime) (size : Int) :
    (markerDoc p mt size).id = "repo:" ++ p := by
  simp [markerDoc, ComputeID]

theorem chunk_id_eq (p : String) (mt : GoTime) (size : Int) (j : Nat) (sum : ContentSummary) :
    (chunkDoc p mt size j sum).id = "repo:" ++ p ++ "#" ++ toString (Int.ofNat j) := by
  simp [chunkDoc, ComputeID]

theorem chunk_entry (p : String) (mt : GoTime) (size : Int) (j : Nat) (sum : ContentSummary) :
    (chunkDoc p mt size j sum).meta.isFileEntry = false := rfl

theorem indexFile_run (env : IndexEnv) (f : FileRec) (s : Store) (sums : List ContentSummary)
    (hstat : env.osStat f.path = some (f.mtime, f.size))
    (hsum : ExtractFileSummaries env f.path = some sums)
    (hclear : ∀ d ∈ s, strHasPfx (ComputeID "repo" f.path (-1)) d.id = false) :
    indexFile env s f.path =
      ⟨batchPutDocs (chunkDocsFrom f.path f.mtime f.size 0 sums) (s ++ [fileMarker f]),
        0 + 1 + (chunkDocsFrom f.path f.mtime f.size 0 sums).length, false⟩ := by
  unfold indexFile
  rw [hstat]
  have hdel : deleteDocsWithPfx (ComputeID "repo" f.path (-1)) s = s := by
    rw [deleteDocsWithPfx]
    refine List.filter_eq_self.mpr ?_
    intro d hd
    simp [hclear d hd]
  have hcount : countDocsWithPfx (ComputeID "repo" f.path (-1)) s = 0 := by
    rw [countDocsWithPfx, List.length_eq_zero]
    refine List.filter_eq_nil_iff.mpr ?_
    intro d hd
    simp [hclear d hd]
  have hany : (s.any fun e => e.id = (markerDoc f.path f.mtime f.size).id) = false := by
    refine List.any_eq_false.mpr ?_
    intro d hd
    simp only [decide_eq_true_eq]
    intro he
    have := hclear d hd
    rw [he, marker_id_eq, mid_eq, hasPfx_refl] at this
    exact Bool.noConfusion this
  have hput : putDoc (markerDoc f.path f.mtime f.size) s
      = s ++ [markerDoc f.path f.mtime f.size] := by
    rw [putDoc, if_neg]
    rw [hany]
    exact Bool.noConfusion
  simp only [hsum, hdel, hcount, hput, fileMarker]

theorem decision_true_of_clear (s : Store) (p : String) (info : GoTime)
    (h : ∀ d ∈ s, strHasPfx (ComputeID "repo" p (-1)) d.id = false) :
    reindexDecision s "repo" p info = true := by
  have : getDoc (ComputeID "repo" p (-1)) s = none := by
    rw [mid_eq]
    refine getDoc_none_of_clear p s ?_
    intro d hd
    have := h d hd
    rwa [mid_eq] at this
  simp [reindexDecision, needsReindexing, this]

theorem walk_establishes (env : IndexEnv) :
    ∀ (rest : List FileRec) (s : Store) (w : Nat) (done : List FileRec),
    (∀ f ∈ rest, env.osStat f.path = some (f.mtime, f.size)) →
    (∀ f ∈ rest, (ExtractFileSummaries env f.path).isSome = true) →
    (∀ f ∈ rest, '#' ∉ f.path.data) →
    List.Pairwise (fun a b => ¬ b.path.data <+: a.path.data) rest →
    (∀ f ∈ done, getDoc (ComputeID "repo" f.path (-1)) s = some (fileMarker f)) →
    (∀ d ∈ s, d.meta.isFileEntry = true → ∃ f ∈ done, d = fileMarker f) →
    (∀ g ∈ rest, ∀ d ∈ s, strHasPfx (ComputeID "repo" g.path (-1)) d.id = false) →
    (∀ f ∈ done ++ rest,
        getDoc (ComputeID "repo" f.path (-1)) (walkNS env "repo" rest (s, w)).1
          = some (fileMarker f)) ∧
    (∀ d ∈ (walkNS env "repo" rest (s, w)).1,
        d.meta.isFileEntry = true → ∃ f ∈ done ++ rest, d = fileMarker f) := by
  intro rest
  induction rest with
  | nil =>
    intro s w done _ _ _ _ i1 i2 _
    simpa [walkNS] using ⟨i1, i2⟩
  | cons f rest ih =>
    intro s w done hstat hsum hhash horder i1 i2 i3
    -- the head file is stale and gets indexed
    have hdec : reindexDecision s "repo" f.path f.mtime = true :=
      decision_true_of_clear s f.path f.mtime
        (i3 f (List.mem_cons_self _ _))
    obtain ⟨sums, hsums⟩ := Option.isSome_iff_exists.mp (hsum f (List.mem_cons_self _ _))
    have hrun := indexFile_run env f s sums (hstat f (List.mem_cons_self _ _)) hsums
      (i3 f (List.mem_cons_self _ _))
    set chunks := chunkDocsFrom f.path f.mtime f.size 0 sums with hchunks
    set s' := batchPutDocs chunks (s ++ [fileMarker f]) with hs'
    have hwalk : walkNS env "repo" (f :: rest) (s, w)
        = walkNS env "repo" rest (s', w + (0 + 1 + chunks.length)) := by
      rw [walkNS, hdec]
      simp only [if_true, hrun]
    -- facts about ids relative to the current store
    have hclearf := i3 f (List.mem_cons_self _ _)
    -- membership in the new store
    have hmem : ∀ d ∈ s', d ∈ s ∨ d = fileMarker f ∨ ∃ j sum, d = chunkDoc f.path f.mtime f.size j sum := by
      intro d hd
      rcases mem_batchPut chunks (s ++ [fileMarker f]) d hd with h1 | h1
      · exact Or.inr (Or.inr (chunkDocsFrom_shape f.path f.mtime f.size 0 sums d h1))
      · rcases List.mem_append.mp h1 with h2 | h2
        · exact Or.inl h2
        · exact Or.inr (Or.inl (List.mem_singleton.mp h2))
    -- the marker of f is found in s'
    have hgetf : getDoc (ComputeID "repo" f.path (-1)) s' = some (fileMarker f) := by
      rw [hs', mid_eq]
      rw [getDoc_batchPut_ne]
      · rw [getDoc, List.find?_append]
        have : getDoc ("repo:" ++ f.path) s = none := by
          refine getDoc_none_of_clear f.path s ?_
          intro d hd
          have := hclearf d hd
          rwa [mid_eq] at this
        rw [getDoc] at this
        rw [this]
        simp [getDoc, List.find?, fileMarker, marker_id_eq]
      · intro d hd
        obtain ⟨j, sum, hj⟩ := chunkDocsFrom_shape f.path f.mtime f.size 0 sums d hd
        rw [hj, chunk_id_eq]
        intro he
        exact mid_ne_chunk f.path f.path (toString (Int.ofNat j))
          (hhash f (List.mem_cons_self _ _)) he.symm
    -- markers of done files survive
    have hgetdone : ∀ g ∈ done, getDoc (ComputeID "repo" g.path (-1)) s' = some (fileMarker g) := by
      intro g hg
      have hgs := i1 g hg
      -- the marker for g is a member of s, so its id does not carry f's marker id as a prefix
      have hmemg : fileMarker g ∈ s := by
        have := List.mem_of_find?_eq_some hgs
        exact this
      have hnp : strHasPfx ("repo:" ++ f.path) ("repo:" ++ g.path) = false := by
        have := hclearf (fileMarker g) hmemg
        rwa [mid_eq, fileMarker, marker_id_eq] at this
      rw [hs', mid_eq]
      rw [getDoc_batchPut_ne]
      · rw [getDoc, List.find?_append]
        rw [mid_eq, getDoc] at hgs
        rw [hgs]
        rfl
      · intro d hd
        obtain ⟨j, sum, hj⟩ := chunkDocsFrom_shape f.path f.mtime f.size 0 sums d hd
        rw [hj, chunk_id_eq]
        exact chunk_ne_of_notPfx f.path (toString (Int.ofNat j)) _ hnp
    -- new store invariants for the recursive call
    have i1' : ∀ g ∈ done ++ [f], getDoc (ComputeID "repo" g.path (-1)) s' = some (fileMarker g) := by
      intro g hg
      rcases List.mem_append.mp hg with h1 | h1
      · exact hgetdone g h1
      · rw [List.mem_singleton.mp h1]
        exact hgetf
    have i2' : ∀ d ∈ s', d.meta.isFileEntry = true → ∃ g ∈ done ++ [f], d = fileMarker g := by
      intro d hd hentry
      rcases hmem d hd with h1 | h1 | ⟨j, sum, hj⟩
      · obtain ⟨g, hg1, hg2⟩ := i2 d h1 hentry
        exact ⟨g, List.mem_append_left _ hg1, hg2⟩
      · exact ⟨f, List.mem_append_right _ (List.mem_singleton_self f), h1⟩
      · rw [hj, chunk_entry] at hentry
        exact Bool.noConfusion hentry
    have i3' : ∀ g ∈ rest, ∀ d ∈ s', strHasPfx (ComputeID "repo" g.path (-1)) d.id = false := by
      intro g hg d hd
      have hgr : ¬ g.path.data <+: f.path.data := (List.pairwise_cons.mp horder).1 g hg
      rcases hmem d hd with h1 | h1 | ⟨j, sum, hj⟩
      · exact i3 g (List.mem_cons_of_mem _ hg) d h1
      · rw [h1, fileMarker, marker_id_eq, mid_eq]
        rw [← Bool.not_eq_true, hasPfx_rp_iff]
        exact hgr
      · rw [hj, chunk_id_eq, mid_eq]
        exact notPfx_chunk g.path f.path (toString (Int.ofNat j))
          (hhash g (List.mem_cons_of_mem _ hg)) hgr
    have hrest : ∀ p, p ∈ rest → p ∈ f :: rest := fun p hp => List.mem_cons_of_mem _ hp
    have := ih s' (w + (0 + 1 + chunks.length)) (done ++ [f])
      (fun p hp => hstat p (hrest p hp))
      (fun p hp => hsum p (hrest p hp))
      (fun p hp => hhash p (hrest p hp))
      (List.pairwise_cons.mp horder).2
      i1' i2' i3'
    rw [hwalk]
    constructor
    · intro g hg
      refine this.1 g ?_
      simpa [List.append_assoc] using hg
    · intro d hd hentry
      obtain ⟨g, hg1, hg2⟩ := this.2 d hd hentry
      refine ⟨g, ?_, hg2⟩
      simpa [List.append_assoc] using hg1

theorem walk_skips (env : IndexEnv) :
    ∀ (rest : List FileRec) (s : Store) (w : Nat),
    (∀ f ∈ rest, getDoc (ComputeID "repo" f.path (-1)) s = some (fileMarker f)) →
    walkNS env "repo" rest (s, w) = (s, w) := by
  intro rest
  induction rest with
  | nil => intro s w _; rfl
  | cons f rest ih =>
    intro s w h
    have hf := h f (List.mem_cons_self _ _)
    have hdec : reindexDecision s "repo" f.path f.mtime = false := by
      simp [reindexDecision, needsReindexing, hf, fileMarker, markerDoc]
    rw [walkNS, hdec]
    simp only [Bool.false_eq_true, if_false]
    exact ih s w (fun g hg => h g (List.mem_cons_of_mem _ hg))

theorem foldl_fixed {α β : Type} (step : β → α → β) (l : List α) (a : β)
    (h : ∀ x ∈ l, ∀ acc, step acc x = acc) : l.foldl step a = a := by
  induction l generalizing a with
  | nil => rfl
  | cons x rest ih =>
    rw [List.foldl_cons, h x (List.mem_cons_self _ _)]
    exact ih a (fun y hy => h y (List.mem_cons_of_mem _ hy))

theorem cleanup_noop (files : List FileRec) (s : Store)
    (h : ∀ d ∈ s, d.meta.isFileEntry = true → ∃ f ∈ files, d = fileMarker f) :
    CleanupDeletedFiles [("repo", files)] s = (s, 0) := by
  rw [CleanupDeletedFiles]
  have hrefs : ∀ r ∈ fileRefsOf s, ∀ acc, cleanupStep [("repo", files)] acc r = acc := by
    intro r hr acc
    rw [fileRefsOf] at hr
    obtain ⟨d, hd, hdr⟩ := List.mem_map.mp hr
    have hdmem := List.mem_of_mem_filter hd
    have hdentry : d.meta.isFileEntry = true := by
      have := List.of_mem_filter hd
      simpa using this
    obtain ⟨f, hf1, hf2⟩ := h d hdmem hdentry
    rw [cleanupStep, ← hdr]
    have hlook : lookupNS [("repo", files)] d.meta.nsName = some files := by
      rw [hf2]
      rfl
    rw [hlook]
    have hany : (files.any fun g => g.path = d.meta.path) = true := by
      refine List.any_eq_true.mpr ?_
      refine ⟨f, hf1, ?_⟩
      rw [hf2]
      simp [fileMarker, markerDoc]
    simp only [hany, if_true]
  exact foldl_fixed _ _ _ hrefs

/-- C5 (amended): restricted to the `"repo"` namespace — the only one whose
walk agrees with the hardcoded document IDs — and to a pass started on an
empty store over files in `WalkDir` order (no later path is a string
prefix of an earlier one, no path contains `#`), with stat and
summarization succeeding: a second `UpdateIndex` immediately after the
first performs zero document writes and leaves the store (hence
`Count()`) unchanged. -/
theorem C5_second_pass_no_writes (env : IndexEnv) (files : List FileRec)
    (hstat : ∀ f ∈ files, env.osStat f.path = some (f.mtime, f.size))
    (hsum : ∀ f ∈ files, (ExtractFileSummaries env f.path).isSome = true)
    (hhash : ∀ f ∈ files, '#' ∉ f.path.data)
    (horder : List.Pairwise (fun a b => ¬ b.path.data <+: a.path.data) files) :
    UpdateIndex env [("repo", files)] (UpdateIndex env [("repo", files)] []).1
      = ((UpdateIndex env [("repo", files)] []).1, 0) := by
  have hW := walk_establishes env files [] 0 [] hstat hsum hhash horder
    (by intro f hf; cases hf) (by intro d hd; cases hd)
    (by intro g _ d hd; cases hd)
  simp only [List.nil_append] at hW
  set sW := (walkNS env "repo" files (([] : Store), 0)).1 with hsW
  have hclean1 : CleanupDeletedFiles [("repo", files)] sW = (sW, 0) :=
    cleanup_noop files sW hW.2
  have hp1 : (UpdateIndex env [("repo", files)] []).1 = sW := by
    rw [UpdateIndex]
    simp only [List.foldl_cons, List.foldl_nil]
    rw [← hsW, hclean1]
  have hwalk2 : walkNS env "repo" files (sW, 0) = (sW, 0) :=
    walk_skips env files sW 0 hW.1
  have e2 : UpdateIndex env [("repo", files)] sW = (sW, 0) := by
    rw [UpdateIndex]
    simp only [List.foldl_cons, List.foldl_nil]
    rw [hwalk2]
    simp [hclean1]
  rw [hp1, e2]

theorem exCost_extract (lines : List String) (r : snippetRange) :
    exCost (extractSnippet lines r).1 = (extractSnippet lines r).2 := rfl

theorem processRanges_spec (lines : List String) :
    ∀ (rs : List snippetRange) (t : Nat),
      (processRanges lines t rs).2 = t + costSum (processRanges lines t rs).1 ∧
      (t ≤ 32000 → (processRanges lines t rs).2 ≤ 32000) := by
  intro rs
  induction rs with
  | nil => intro t; simp [processRanges, costSum]
  | cons r rest ih =>
    intro t
    rw [processRanges]
    by_cases hb : t + (extractSnippet lines r).2 > 32000
    · simp only [hb, if_true]
      simp [costSum]
    · simp only [hb, if_false]
      obtain ⟨ih1, ih2⟩ := ih (t + (extractSnippet lines r).2)
      constructor
      · simp only [costSum, List.map_cons, List.sum_cons, exCost_extract]
        rw [ih1]
        simp [costSum]
        ring
      · intro _
        exact ih2 (by omega)

theorem processFile_spec (g : FileGroup) (t : Nat) :
    (processFile g t).2 = t + costSum (processFile g t).1 ∧
    (t ≤ 32000 → (processFile g t).2 ≤ 32000) := by
  rw [processFile]
  by_cases hw : shouldIncludeWholeFile (mergeRanges g.ranges) g.lines.length = true
  · simp only [hw, if_true]
    set ex := extractSnippet g.lines
      { startLine := 1, endLine := (g.lines.length : Int),
        filePath := g.filePath,
        path := (g.ranges.headI).path, nsName := (g.ranges.headI).nsName } with hex
    by_cases hb : t + ex.2 ≤ 32000
    · rw [if_pos hb]
      refine ⟨?_, fun _ => hb⟩
      simp only [costSum, List.map_cons, List.map_nil, List.sum_cons, List.sum_nil]
      rw [hex]
      rw [exCost_extract]
      omega
    · rw [if_neg hb]
      simp [costSum]
  · simp only [Bool.not_eq_true] at hw
    simp only [hw, Bool.false_eq_true, if_false]
    exact processRanges_spec g.lines (mergeRanges g.ranges) t

theorem collectSnippets_budget (groups : List FileGroup) :
    costSum (collectSnippets groups).1 ≤ 32000 := by
  rw [collectSnippets]
  suffices h : ∀ (acc : List CodeExample) (t : Nat),
      t = costSum acc → t ≤ 32000 →
      costSum (groups.foldl
        (fun acc g =>
          let out := processFile g acc.2
          (acc.1 ++ out.1, out.2)) (acc, t)).1 ≤ 32000 by
    exact h [] 0 (by simp [costSum]) (by omega)
  induction groups with
  | nil =>
    intro acc t h1 h2
    simp only [List.foldl_nil]
    exact h1 ▸ h2
  | cons g rest ih =>
    intro acc t h1 h2
    simp only [List.foldl_cons]
    obtain ⟨hs1, hs2⟩ := processFile_spec g t
    refine ih (acc ++ (processFile g t).1) (processFile g t).2 ?_ (hs2 h2)
    rw [hs1, h1]
    simp [costSum]

theorem str_append_assoc (a b c : String) : a ++ b ++ c = a ++ (b ++ c) := by
  apply String.ext
  rw [String.data_append, String.data_append, String.data_append, String.data_append]
  exact List.append_assoc _ _ _

theorem markerTagged (p : String) (mt : GoTime) (size : Int) :
    repoTagged (markerDoc p mt size) :=
  ⟨rfl, p, marker_id_eq p mt size⟩

theorem chunkTagged (p : String) (mt : GoTime) (size : Int) (j : Nat) (sum : ContentSummary) :
    repoTagged (chunkDoc p mt size j sum) := by
  refine ⟨rfl, p ++ "#" ++ toString (Int.ofNat j), ?_⟩
  rw [chunk_id_eq, str_append_assoc, str_append_assoc, str_append_assoc]

theorem indexFile_mem (env : IndexEnv) (s : Store) (p : String) (d : StoredDoc)
    (h : d ∈ (indexFile env s p).store) : d ∈ s ∨ repoTagged d := by
  rw [indexFile] at h
  cases hstat : env.osStat p with
  | none => rw [hstat] at h; exact Or.inl h
  | some info =>
    rw [hstat] at h
    cases info with
    | mk mt size =>
      simp only at h
      cases hsum : ExtractFileSummaries env p with
      | none =>
        rw [hsum] at h
        simp only at h
        rcases mem_putDoc d _ _ h with h1 | h1
        · exact Or.inr (h1 ▸ markerTagged p mt size)
        · exact Or.inl (mem_delete _ _ _ h1)
      | some sums =>
        rw [hsum] at h
        simp only at h
        rcases mem_batchPut _ _ d h with h1 | h1
        · obtain ⟨j, sum, hj⟩ := chunkDocsFrom_shape p mt size 0 sums d h1
          exact Or.inr (hj ▸ chunkTagged p mt size j sum)
        · rcases mem_putDoc d _ _ h1 with h2 | h2
          · exact Or.inr (h2 ▸ markerTagged p mt size)
          · exact Or.inl (mem_delete _ _ _ h2)

theorem walkNS_mem (env : IndexEnv) (ns : String) :
    ∀ (files : List FileRec) (s : Store) (w : Nat) (d : StoredDoc),
      d ∈ (walkNS env ns files (s, w)).1 → d ∈ s ∨ repoTagged d := by
  intro files
  induction files with
  | nil => intro s w d h; exact Or.inl h
  | cons f rest ih =>
    intro s w d h
    rw [walkNS] at h
    by_cases hdec : reindexDecision s ns f.path f.mtime = true
    · rw [if_pos hdec] at h
      rcases ih _ _ d h with h1 | h1
      · exact (indexFile_mem env s f.path d h1).imp_left id
      · exact Or.inr h1
    · rw [if_neg hdec] at h
      exact ih _ _ d h

theorem cleanup_mem (fss : List (String × List FileRec)) :
    ∀ (l : List (String × String)) (acc : Store × Nat) (d : StoredDoc),
      d ∈ (l.foldl (cleanupStep fss) acc).1 → d ∈ acc.1 := by
  intro l
  induction l with
  | nil => intro acc d h; exact h
  | cons r rest ih =>
    intro acc d h
    rw [List.foldl_cons] at h
    have := ih _ d h
    rw [cleanupStep] at this
    cases hlook : lookupNS fss r.1 with
    | none => rwa [hlook] at this
    | some files =>
      rw [hlook] at this
      simp only at this
      by_cases hany : (files.any fun f => f.path = r.2) = true
      · rwa [if_pos hany] at this
      · rw [if_neg hany] at this
        exact mem_delete _ _ _ this

theorem walkFold_mem (env : IndexEnv) :
    ∀ (fss : List (String × List FileRec)) (acc : Store × Nat) (d : StoredDoc),
      d ∈ (fss.foldl (fun acc nsp => walkNS env nsp.1 nsp.2 acc) acc).1 →
      d ∈ acc.1 ∨ repoTagged d := by
  intro fss
  induction fss with
  | nil => intro acc d h; exact Or.inl h
  | cons nsp rest ih =>
    intro acc d h
    rw [List.foldl_cons] at h
    rcases ih _ d h with h1 | h1
    · cases acc with
      | mk s w => exact (walkNS_mem env nsp.1 nsp.2 s w d h1).imp_left id
    · exact Or.inr h1

theorem cleanup_sub (fss : List (String × List FileRec)) (s : Store) (d : StoredDoc)
    (h : d ∈ (CleanupDeletedFiles fss s).1) : d ∈ s := by
  rw [CleanupDeletedFiles] at h
  exact cleanup_mem fss _ _ d h

theorem UpdateIndex_mem (env : IndexEnv) (fss : List (String × List FileRec))
    (s : Store) (d : StoredDoc) (h : d ∈ (UpdateIndex env fss s).1) :
    d ∈ s ∨ repoTagged d := by
  rw [UpdateIndex] at h
  simp only at h
  exact walkFold_mem env fss (s, 0) d (cleanup_sub fss _ d h)

theorem bigLine_eq : bigLine = String.mk (List.replicate 128000 'a') := rfl

theorem bigLine_len : bigLine.length = 128000 :=
  (congrArg String.length bigLine_eq).trans
    ((String.length_mk _).trans (List.length_replicate _ _))

theorem collect_gen1 (b : String) (hb : b.length = 128000) :
    collectSnippets
      [{ nsName := "x", filePath := "f", lines := [b, "x", "y"],
         ranges := [{ startLine := 1, endLine := 1, filePath := "f",
                      path := "f", nsName := "x" }] }] = ([], 0) := by
  have h1 : ("\n" : String).length = 1 := rfl
  have h4 : ("x\ny" : String).length = 3 := rfl
  simp [collectSnippets, processFile, processRanges,
    mergeRanges, sortByStart, insertByStart, mergeLoop,
    shouldIncludeWholeFile, coveredLines,
    extractSnippet, goJoin, String.length_append, hb, h1, h4,
    contextLines, mergeThreshold, Finset.empty_union, Int.card_Icc]

theorem collect_gen2 (b : String) (hb : b.length = 128000) :
    collectSnippets
      [{ nsName := "x", filePath := "f", lines := [b, "x", "y"],
         ranges := [{ startLine := 1, endLine := 1, filePath := "f",
                      path := "f", nsName := "x" }] },
       cexGroupSmall] = ([cexSmallExample], 0) := by
  have h1 : ("\n" : String).length = 1 := rfl
  have h4 : ("x\ny" : String).length = 3 := rfl
  have h5 : ("bb" : String).length = 2 := rfl
  simp [collectSnippets, cexGroupSmall, processFile, processRanges,
    mergeRanges, sortByStart, insertByStart, mergeLoop,
    shouldIncludeWholeFile, coveredLines,
    extractSnippet, goJoin, String.length_append, hb, h1, h4, h5, cexSmallExample,
    contextLines, mergeThreshold, Finset.empty_union, Int.card_Icc]

theorem cexGroupBig_eq :
    cexGroupBig =
      { nsName := "x", filePath := "f", lines := [bigLine, "x", "y"],
        ranges := [{ startLine := 1, endLine := 1, filePath := "f",
                     path := "f", nsName := "x" }] } := rfl

/-- C3 (counterexample): with one file whose only snippet costs 32001
tokens (over the 32000 budget) followed by a second file with a tiny
snippet, the first snippet is dropped — processing that file alone
collects nothing — yet the second file's snippet still reaches the final
set, so snippets of files still to be processed are NOT all dropped once
the budget is first exceeded, contradicting the claim. -/
theorem C3_counterexample :
    collectSnippets [cexGroupBig] = ([], 0) ∧
    collectSnippets [cexGroupBig, cexGroupSmall] = ([cexSmallExample], 0) := by
  constructor
  · rw [cexGroupBig_eq]
    exact collect_gen1 bigLine bigLine_len
  · rw [cexGroupBig_eq]
    exact collect_gen2 bigLine bigLine_len

/-- C3 (amended): each snippet's cost is `len(text)/4` and snippets
accumulate only while the running total stays within the 32000 budget —
the collected set's total recomputed cost never exceeds 32000 — but a
budget overflow only stops the current file's range loop: files processed
later still contribute snippets that fit, as the concrete run shows. -/
theorem C3_budget :
    (∀ groups : List FileGroup, costSum (collectSnippets groups).1 ≤ 32000) ∧
    (∀ (lines : List String) (r : snippetRange),
        exCost (extractSnippet lines r).1 = (extractSnippet lines r).2) ∧
    (collectSnippets [cexGroupBig, cexGroupSmall]).1 = [cexSmallExample] := by
  refine ⟨collectSnippets_budget, exCost_extract, ?_⟩
  rw [cexGroupBig_eq, collect_gen2 bigLine bigLine_len]
theorem computeID_ns_ne (ns path : String) (h : ns ≠ "repo") :
    ComputeID ns path (-1) ≠ ComputeID "repo" path (-1) := by
  intro he
  apply h
  simp only [ComputeID, if_pos (by norm_num : (-1 : Int) < 0)] at he
  have hd := congrArg String.data he
  rw [str_append_assoc, str_append_assoc] at he
  have hd2 := congrArg String.data he
  rw [String.data_append, String.data_append] at hd2
  exact String.ext (List.append_cancel_right hd2)

theorem stale_of_unreachable (s : Store) (ns path : String) (info : GoTime)
    (hids : ∀ d ∈ s, repoOwnedId d)
    (hne : ∀ r, ns ++ ":" ++ path ≠ "repo:" ++ r) :
    needsReindexing s ns path info = (true, false) := by
  have hg : getDoc (ComputeID ns path (-1)) s = none := by
    refine List.find?_eq_none.mpr ?_
    intro d hd
    simp only [decide_eq_true_eq]
    intro he
    obtain ⟨r, hr⟩ := hids d hd
    refine hne r ?_
    rw [← hr, he]
    simp [ComputeID]
  rw [needsReindexing, hg]

theorem extra_unreachable (path r : String) :
    "extra" ++ ":" ++ path ≠ "repo:" ++ r := by
  intro h
  have hd := congrArg String.data h
  rw [String.data_append, String.data_append, String.data_append] at hd
  rw [show ("extra" : String).data = ['e', 'x', 't', 'r', 'a'] from rfl] at hd
  rw [show ("repo:" : String).data = ['r', 'e', 'p', 'o', ':'] from rfl] at hd
  simp at hd

/-- C10: every document an index pass writes carries namespace metadata
`"repo"` and an ID beginning `"repo:"` regardless of the walked
namespace; the staleness lookup key `"<ns>:<path>"` differs from the
marker ID the indexer wrote for that file whenever `ns ≠ "repo"`; in a
store holding only `"repo:"`-rooted IDs, a namespace whose lookup keys
cannot take the `"repo:<...>"` form — in particular the program's other
namespace `"extra"` — finds no marker, so each of its files is reported
stale (with no error) on every pass. -/
theorem C10_namespace_mismatch :
    (∀ (env : IndexEnv) (fss : List (String × List FileRec)) (s : Store)
        (d : StoredDoc), d ∈ (UpdateIndex env fss s).1 → d ∈ s ∨ repoTagged d) ∧
    (∀ ns path : String, ns ≠ "repo" →
        ComputeID ns path (-1) ≠ ComputeID "repo" path (-1)) ∧
    (∀ (s : Store) (ns path : String) (info : GoTime),
        (∀ d ∈ s, repoOwnedId d) → (∀ r, ns ++ ":" ++ path ≠ "repo:" ++ r) →
        needsReindexing s ns path info = (true, false) ∧
          reindexDecision s ns path info = true) ∧
    (∀ path r : String, "extra" ++ ":" ++ path ≠ "repo:" ++ r) := by
  refine ⟨UpdateIndex_mem, computeID_ns_ne, ?_, extra_unreachable⟩
  intro s ns path info hids hne
  have h := stale_of_unreachable s ns path info hids hne
  refine ⟨h, ?_⟩
  rw [reindexDecision, h]
  rfl

/-- C10 (witness): a store holding `a.go`'s repo-rooted marker, walked
under the `"extra"` namespace, reports any file stale with no error. -/
theorem C10_namespace_mismatch_witness :
    needsReindexing [docA] "extra" "f.go" ⟨300, 0⟩ = (true, false) ∧
    reindexDecision [docA] "extra" "f.go" ⟨300, 0⟩ = true ∧
    ComputeID "extra" "a.go" (-1) ≠ ComputeID "repo" "a.go" (-1) := by
  have hids : ∀ d ∈ ([docA] : Store), repoOwnedId d := by
    intro d hd
    rw [List.mem_singleton.mp hd]
    exact ⟨"a.go", rfl⟩
  have h := C10_namespace_mismatch.2.2.1 [docA] "extra" "f.go" ⟨300, 0⟩ hids
    (fun r => C10_namespace_mismatch.2.2.2 "f.go" r)
  exact ⟨h.1, h.2, C10_namespace_mismatch.2.1 "extra" "a.go" (by decide)⟩
theorem bak_has_ago_pfx (idx : Int) :
    strHasPfx (ComputeID "repo" "a.go" (-1)) (ComputeID "repo" "a.go.bak" idx) = true := by
  by_cases h : idx < 0
  · simp only [ComputeID, if_pos h, if_pos (by norm_num : (-1 : Int) < 0)]
    decide
  · simp only [ComputeID, if_pos (by norm_num : (-1 : Int) < 0), if_neg h]
    rw [hasPfx_iff]
    rw [String.data_append, String.data_append]
    have base : ("repo" ++ ":" ++ "a.go" : String).data <+:
        ("repo" ++ ":" ++ "a.go.bak" : String).data := by decide
    exact base.trans ((List.prefix_append _ _).trans (List.prefix_append _ _))

/-- C1 (counterexample): in a store holding the document sets of both
`a.go` and `a.go.bak`, deleting with `a.go`'s marker ID as the prefix —
exactly what re-indexing `a.go` does first — also deletes `a.go.bak`'s
marker and chunk, because `"repo:a.go"` is a literal string prefix of
their IDs; the claim that `a.go.bak`'s documents are unaffected is false. -/
theorem C1_counterexample :
    getDoc "repo:a.go.bak" cexStoreAB = some docB ∧
    getDoc "repo:a.go.bak#0" cexStoreAB = some docB0 ∧
    getDoc "repo:a.go.bak"
      (deleteDocsWithPfx (ComputeID "repo" "a.go" (-1)) cexStoreAB) = none ∧
    getDoc "repo:a.go.bak#0"
      (deleteDocsWithPfx (ComputeID "repo" "a.go" (-1)) cexStoreAB) = none := by
  decide

/-- C1 (amended): `DeleteDocumentsWithPrefix` on `a.go`'s marker ID
removes exactly the documents whose IDs carry that literal string prefix
— documents without the prefix survive with their lookups intact — and
every ID of `a.go.bak` (marker or any chunk index) carries `a.go`'s
marker ID as a literal prefix, so `a.go.bak`'s documents are deleted
along with `a.go`'s. -/
theorem C1_pfx_deletion :
    (∀ (p id : String) (s : Store),
        getDoc id (deleteDocsWithPfx p s) =
          if strHasPfx p id then none else getDoc id s) ∧
    (∀ idx : Int,
        strHasPfx (ComputeID "repo" "a.go" (-1))
          (ComputeID "repo" "a.go.bak" idx) = true) :=
  ⟨getDoc_delete, bak_has_ago_pfx⟩

/-- C2 (code bug): a marker whose recorded `mod_time` fails to parse makes
`needsReindexing` return `(true, error)`; the walker in `UpdateIndex`
checks the error first and skips the file, so the pass performs no write
and leaves the file unindexed — the file is NOT reindexed, although the
claim (and `needsReindexing`'s own intent, which returns `true`) says the
parse failure forces reindexing. -/
theorem C2_parse_failure_skips :
    needsReindexing [badMarker] "repo" "f.go" fileF.mtime = (true, true) ∧
    reindexDecision [badMarker] "repo" "f.go" fileF.mtime = false ∧
    UpdateIndex envWorking [("repo", [fileF])] [badMarker] = ([badMarker], 0) := by
  decide

/-- C4 (code bug): `indexFile` writes the fresh marker before consulting
the summarizer; when summarization fails the call errors out with the
marker already stored and no chunk documents — the store holds a freshly
written marker without its chunks, contradicting the claimed atomic
marker+chunks lifecycle.  The rejection is still per-file: in a two-file
pass whose summarizer fails only on `f.go`, `g.go` is fully indexed. -/
theorem C4_marker_without_chunks :
    (indexFile envNoSummaries [] "f.go").failed = true ∧
    (indexFile envNoSummaries [] "f.go").store = [markerDoc "f.go" ⟨200, 0⟩ 5] ∧
    ((indexFile envNoSummaries [] "f.go").store.filter
        (fun d => d.meta.isFileEntry = false)) = [] ∧
    (UpdateIndex envMixed [("repo", [fileF, fileG])] []).1 =
      [markerDoc "f.go" ⟨200, 0⟩ 5, markerDoc "g.go" ⟨300, 0⟩ 9,
        chunkDoc "g.go" ⟨300, 0⟩ 9 0
          { summary := "a summary", span := { startLine := 1, endLine := 1 } }] := by
  decide

/-- C5 (counterexample): walking the namespace `"extra"` over an
unchanged file, the second `UpdateIndex` pass performs four document
writes (two deletions and two re-inserts) instead of zero, because the
marker was written under `"repo:f.go"` but is looked up under
`"extra:f.go"`, so the file is stale on every pass. -/
theorem C5_counterexample :
    (UpdateIndex envWorking [("extra", [fileF])]
        (UpdateIndex envWorking [("extra", [fileF])] []).1).2 = 4 ∧
    (UpdateIndex envWorking [("extra", [fileF])]
        (UpdateIndex envWorking [("extra", [fileF])] []).1).2 ≠ 0 := by
  decide

/-- C5 (witness): the repo-namespace instance with one file. -/
theorem C5_second_pass_no_writes_witness :
    UpdateIndex envWorking [("repo", [fileF])]
        (UpdateIndex envWorking [("repo", [fileF])] []).1
      = ((UpdateIndex envWorking [("repo", [fileF])] []).1, 0) :=
  C5_second_pass_no_writes envWorking [fileF]
    (by decide) (by decide) (by decide) (by simp)

/-- C6: for every walked non-directory file, a missing marker means the
file is reindexed; when the marker's recorded `mod_time` parses, the file
is reindexed if and only if its current modification time is strictly
newer at second resolution (`Unix()` comparison) than the recorded one —
the decision reads nothing but the marker and the stat times, so content
plays no role. -/
theorem C6_staleness_decision :
    ∀ (s : Store) (ns path : String) (info : GoTime),
      (getDoc (ComputeID ns path (-1)) s = none →
        reindexDecision s ns path info = true) ∧
      (∀ (d : StoredDoc) (t : Int),
        getDoc (ComputeID ns path (-1)) s = some d → d.meta.modTime = some t →
        (reindexDecision s ns path info = true ↔ info.sec > t)) := by
  intro s ns path info
  constructor
  · intro h
    simp [reindexDecision, needsReindexing, h]
  · intro d t hd ht
    simp [reindexDecision, needsReindexing, hd, ht]

/-- C6 (witness): no marker forces indexing; advancing the stored time by
a full second reindexes, while a sub-second advance or a move backward
does not. -/
theorem C6_staleness_decision_witness :
    reindexDecision [] "repo" "a.go" ⟨5, 0⟩ = true ∧
    reindexDecision [freshMarker] "repo" "f.go" ⟨101, 0⟩ = true ∧
    reindexDecision [freshMarker] "repo" "f.go" ⟨100, 500000000⟩ = false ∧
    reindexDecision [freshMarker] "repo" "f.go" ⟨99, 0⟩ = false := by
  refine ⟨(C6_staleness_decision [] "repo" "a.go" ⟨5, 0⟩).1 rfl, ?_, ?_, ?_⟩
  · exact ((C6_staleness_decision [freshMarker] "repo" "f.go" ⟨101, 0⟩).2
      freshMarker 100 rfl rfl).mpr (by decide)
  · have h := (C6_staleness_decision [freshMarker] "repo" "f.go" ⟨100, 500000000⟩).2
      freshMarker 100 rfl rfl
    exact Bool.eq_false_iff.mpr (fun hh => absurd (h.mp hh) (by decide))
  · have h := (C6_staleness_decision [freshMarker] "repo" "f.go" ⟨99, 0⟩).2
      freshMarker 100 rfl rfl
    exact Bool.eq_false_iff.mpr (fun hh => absurd (h.mp hh) (by decide))

/-- C7 (counterexample): for the mismatched-dimension vector `[1]`, the
code returns the sentinel `-1`, not `0`, so the claim's
"`sim([0,0,0], x) == 0.0` for every vector `x`" is false as stated. -/
theorem C7_counterexample :
    cosineSimilarity [0, 0, 0] [1] = -1 ∧ cosineSimilarity [0, 0, 0] [1] ≠ 0 := by
  have h : cosineSimilarity [0, 0, 0] [1] = -1 := by
    norm_num [cosineSimilarity]
  rw [h]
  norm_num

/-- C7 (amended): the unit self-similarity and orthogonality values hold
exactly; the zero vector yields similarity `0` against every vector of
the same dimension, with the zero-norm guard returning before any
division (so no error and no NaN); any dimension mismatch yields the
sentinel `-1` rather than an error. -/
theorem C7_cosine :
    cosineSimilarity [1, 0, 0] [1, 0, 0] = 1 ∧
    cosineSimilarity [1, 0, 0] [0, 1, 0] = 0 ∧
    (∀ x : List ℚ, x.length = 3 → cosineSimilarity [0, 0, 0] x = 0) ∧
    (∀ a b : List ℚ, a.length ≠ b.length → cosineSimilarity a b = -1) := by
  refine ⟨?_, ?_, ?_, ?_⟩
  · norm_num [cosineSimilarity, dotQ, normSqQ, Real.sqrt_one]
  · norm_num [cosineSimilarity, dotQ, normSqQ, Real.sqrt_one]
  · intro x h
    simp [cosineSimilarity, normSqQ, h]
  · intro a b h
    simp [cosineSimilarity, h]

/-- C7 (witness): the zero-vector case at the concrete `[2,3,4]` and the
mismatch case at `[1]` against `[1,2]`. -/
theorem C7_cosine_witness :
    cosineSimilarity [0, 0, 0] [2, 3, 4] = 0 ∧ cosineSimilarity [1] [1, 2] = -1 :=
  ⟨C7_cosine.2.2.1 [2, 3, 4] rfl, C7_cosine.2.2.2 [1] [1, 2] (by decide)⟩

/-- C8: the three merge examples of the claim — the threshold-10 merge of
`[(10,20),(25,35),(60,70),(75,85)]` into `[(10,35),(60,85)]`, the
unmerged gap-20 pair, and the unsorted input whose merge equals that of
its sorted form, yielding `[(10,50)]`. -/
theorem C8_merge_examples :
    mergeRanges [rg 10 20, rg 25 35, rg 60 70, rg 75 85]
      = [rg 10 35, rg 60 85] ∧
    mergeRanges [rg 10 20, rg 40 50] = [rg 10 20, rg 40 50] ∧
    mergeRanges [rg 40 50, rg 10 20, rg 25 35] = [rg 10 50] ∧
    mergeRanges [rg 40 50, rg 10 20, rg 25 35]
      = mergeRanges [rg 10 20, rg 25 35, rg 40 50] := by
  decide

/-- C9: whenever filtering leaves no search results — in particular when
the store is empty, i.e. `Count() = 0`, so the clamped query returns no
hits — `Query` returns the fixed refusal text as a normal (non-error)
result with the answer generator never invoked. -/
theorem C9_empty_refusal :
    (∀ (docs : List StoredDoc) (simOf : StoredDoc → ℚ)
        (collect : List SearchResult → List CodeExample)
        (gen : String → Option String) (q : String),
        filterResults (searchStore docs simOf 30) = [] →
        runQuery docs simOf collect gen q = some (refusalText, false)) ∧
    (∀ (docs : List StoredDoc) (simOf : StoredDoc → ℚ)
        (collect : List SearchResult → List CodeExample)
        (gen : String → Option String) (q : String),
        countDocs docs = 0 →
        runQuery docs simOf collect gen q = some (refusalText, false)) := by
  constructor
  · intro docs simOf collect gen q h
    simp [runQuery, h]
  · intro docs simOf collect gen q h
    have hd : docs = [] := List.length_eq_zero.mp h
    subst hd
    simp [runQuery, searchStore, dbQuery, filterResults, countDocs]

/-- C9 (witness): the empty store returns the refusal without invoking
the generator. -/
theorem C9_empty_refusal_witness :
    runQuery [] (fun _ => 0) (fun _ => []) (fun _ => none) "where is main?"
      = some (refusalText, false) :=
  C9_empty_refusal.2 [] (fun _ => 0) (fun _ => []) (fun _ => none)
    "where is main?" rfl
